import Mathlib

/-
Verification of the iterative verifier (iterative_verifier.go) against its
natural-language specification.  The Go code is shallowly embedded below:
pure functions become Lean functions, mutable struct state becomes explicit
state passing, Go maps become association lists (one admissible iteration
order of the nondeterministic Go map iteration), uint64 values become Nat,
Go int becomes Int, byte slices become List Nat, and Go errors become
Option String / Except values.
-/

namespace Ghostferry

/-- Column types of the go-mysql schema library (external dependency); the
verifier only distinguishes TYPE_FLOAT from the rest
(normalizeAndQuoteColumn, line 574). -/
inductive ColumnType where
  | TYPE_NUMBER
  | TYPE_FLOAT
  | TYPE_ENUM
  | TYPE_SET
  | TYPE_STRING
  | TYPE_DATETIME
  | TYPE_OTHER
  deriving DecidableEq, Repr

/-- schema.TableColumn of the go-mysql library: a column name and type. -/
structure TableColumn where
  Name : String
  «Type» : ColumnType
  deriving DecidableEq, Repr

/-- schema.Table of the go-mysql library, as consumed by the verifier:
schema name, table name and ordered column list. -/
structure SchemaTable where
  Schema : String
  Name : String
  Columns : List TableColumn
  deriving DecidableEq, Repr

/-- TableIdentifier (iterative_verifier.go lines 20-23). -/
structure TableIdentifier where
  SchemaName : String
  TableName : String
  deriving DecidableEq, Repr

/-- NewTableIdentifierFromSchemaTable (lines 25-30). -/
def NewTableIdentifierFromSchemaTable (table : SchemaTable) : TableIdentifier :=
  { SchemaName := table.Schema, TableName := table.Name }

/-- ReverifyBatch (lines 32-35); Pks is a []uint64. -/
structure ReverifyBatch where
  Pks : List Nat
  Table : TableIdentifier
  deriving DecidableEq, Repr

/-- ReverifyEntry (lines 37-40). -/
structure ReverifyEntry where
  Pk : Nat
  Table : SchemaTable
  deriving DecidableEq, Repr

/-- Lookup in a Go map modelled as an association list (first match). -/
def goMapGet {α β : Type} [DecidableEq α] : List (α × β) → α → Option β
  | [], _ => none
  | (a, b) :: rest, k => if a = k then some b else goMapGet rest k

/-- Update/insert in a Go map modelled as an association list: replaces the
value of an existing key in place, otherwise appends the new key. -/
def goMapSet {α β : Type} [DecidableEq α] : List (α × β) → α → β → List (α × β)
  | [], k, v => [(k, v)]
  | (a, b) :: rest, k, v =>
    if a = k then (k, v) :: rest else (a, b) :: goMapSet rest k v

/-- ReverifyStore (lines 42-47).  The Go field
MapStore map[TableIdentifier]map[uint64]struct  is modelled as an optional
association list from table identifiers to pk lists (none models a nil Go
map, and the inner pk lists are kept duplicate-free by Add just as a Go set
is); SortedStore is the []ReverifyBatch field. -/
structure ReverifyStore where
  MapStore : Option (List (TableIdentifier × List Nat))
  SortedStore : List ReverifyBatch
  RowCount : Nat
  EmitLogPerRowCount : Nat
  deriving DecidableEq, Repr

/-- NewReverifyStore (lines 49-55). -/
def NewReverifyStore : ReverifyStore :=
  { MapStore := some []
    SortedStore := []
    RowCount := 0
    EmitLogPerRowCount := 10000 }

/-- ReverifyStore.Add (lines 57-73), pointer receiver: returns the updated
store.  The debug log emitted every EmitLogPerRowCount rows has no effect on
the state beyond the RowCount increment and is not modelled.  Add is only
ever invoked by consumeReverifyChan while MapStore is non-nil; on a nil Go
map the assignment would panic, so the none branch is never reached. -/
def ReverifyStore.Add (r : ReverifyStore) (entry : ReverifyEntry) : ReverifyStore :=
  match r.MapStore with
  | none => r
  | some m =>
    let tableId := NewTableIdentifierFromSchemaTable entry.Table
    let pkSet := (goMapGet m tableId).getD []
    if entry.Pk ∈ pkSet then r
    else
      { r with
        MapStore := some (goMapSet m tableId (pkSet ++ [entry.Pk]))
        RowCount := r.RowCount + 1 }

/-- The inner loop of FreezeAndBatchByTable (lines 82-99) for one table:
pkBatch is the accumulator slice, flushed into the output whenever its
length reaches batchsize, with a final flush of any non-empty remainder. -/
def freezeTable (batchsize : Int) (tableId : TableIdentifier)
    (pkBatch : List Nat) : List Nat → List ReverifyBatch
  | [] =>
    if pkBatch.length > 0 then [{ Pks := pkBatch, Table := tableId }] else []
  | pk :: rest =>
    let pkBatch2 := pkBatch ++ [pk]
    if (pkBatch2.length : Int) ≥ batchsize then
      { Pks := pkBatch2, Table := tableId } :: freezeTable batchsize tableId [] rest
    else
      freezeTable batchsize tableId pkBatch2 rest

/-- The outer loop of FreezeAndBatchByTable (lines 81-103): one table after
another, in map-iteration order. -/
def freezeTables (batchsize : Int) : List (TableIdentifier × List Nat) → List ReverifyBatch
  | [] => []
  | (tableId, pkSet) :: rest =>
    freezeTable batchsize tableId [] pkSet ++ freezeTables batchsize rest

/-- ReverifyStore.FreezeAndBatchByTable (lines 75-107).  The Go receiver is
a VALUE receiver: the function body works on a copy of the struct, so the
assignments r.SortedStore = ... and r.MapStore = nil are lost when the call
returns, while delete(r.MapStore, tableId) mutates the hash map shared with
the caller, emptying it.  The first component is the returned batch slice;
the second component is the store of the caller after the call: its MapStore has
every key deleted (still non-nil) and its SortedStore is untouched. -/
def ReverifyStore.FreezeAndBatchByTable (r : ReverifyStore) (batchsize : Int) :
    List ReverifyBatch × ReverifyStore :=
  match r.MapStore with
  | none => (r.SortedStore, r)
  | some m => (freezeTables batchsize m, { r with MapStore := some [] })

/-- A store built from a fresh store by a sequence of Add calls (the only
way stores are populated: consumeReverifyChan, lines 396-405). -/
def applyAdds (adds : List ReverifyEntry) : ReverifyStore :=
  adds.foldl ReverifyStore.Add NewReverifyStore

/-- VerificationResult (defined in verifier.go of the repository; its shape
is fixed by the spec and by lines 387-393 of iterative_verifier.go). -/
structure VerificationResult where
  DataCorrect : Bool
  Message : String
  deriving DecidableEq, Repr

/-- verificationResultAndError (lines 109-112). -/
structure VerificationResultAndError where
  Result : VerificationResult
  Error : Option String
  deriving DecidableEq, Repr

/-- verificationResultAndError.ErroredOrFailed (lines 114-116). -/
def VerificationResultAndError.ErroredOrFailed (r : VerificationResultAndError) : Bool :=
  r.Error.isSome || !r.Result.DataCorrect

/-- Insertion into the Go set map[uint64]struct used for mismatchSet
(line 484): a no-op when the key is already present. -/
def setInsert (s : List Nat) (pk : Nat) : List Nat :=
  if pk ∈ s then s else s ++ [pk]

/-- One of the two identical collection loops of compareHashes
(lines 486-491 and 493-498): for every (pk, hash) pair of the iterated map
whose condition holds, pk is inserted into the mismatch set. -/
def collectMismatches (cond : Nat → List Nat → Bool)
    (iterated : List (Nat × List Nat)) (mismatchSet : List Nat) : List Nat :=
  iterated.foldl
    (fun acc e => if cond e.1 e.2 then setInsert acc e.1 else acc)
    mismatchSet

/-- compareHashes (lines 483-505).  Fingerprints are byte slices, modelled
as List Nat; a missed lookup yields the nil slice, which bytes.Equal treats
exactly like the empty slice, hence the Option.getD [].  The first loop
iterates the target map and looks each pk up in source
(condition !bytes.Equal(sourceHash, targetHash) || !exists); the second
iterates the source map and looks each pk up in target.  The final
conversion of the mismatch set to a slice returns its elements. -/
def compareHashes (source target : List (Nat × List Nat)) : List Nat :=
  collectMismatches
    (fun pk sourceHash =>
      !(sourceHash == (goMapGet target pk).getD []) || !(goMapGet target pk).isSome)
    source
    (collectMismatches
      (fun pk targetHash =>
        !((goMapGet source pk).getD [] == targetHash) || !(goMapGet source pk).isSome)
      target [])

deriving instance DecidableEq for Except

/-- A DML event as consumed by the binlog event listener: its table schema
and the outcome of ev.PK() (a uint64 or an extraction error). -/
structure DMLEvent where
  TableSchema : SchemaTable
  PK : Except String Nat
  deriving DecidableEq, Repr

/-- Whether ev.PK() succeeds. -/
def pkExtractOk (ev : DMLEvent) : Bool :=
  match ev.PK with
  | Except.ok _ => true
  | Except.error _ => false

/-- IterativeVerifier.tableIsIgnored (lines 428-436). -/
def tableIsIgnored (ignoredTables : List String) (table : SchemaTable) : Bool :=
  ignoredTables.any (fun ignored => table.Name == ignored)

/-- The event loop of binlogEventListener (lines 412-423): ignored tables
are skipped; a PK-extraction error aborts the batch immediately, returning
that error; otherwise a ReverifyEntry is sent to reverifyChan.  The first
component collects the entries sent to the channel, in order; the second is
the returned error. -/
def binlogEventLoop (ignoredTables : List String) :
    List DMLEvent → List ReverifyEntry × Option String
  | [] => ([], none)
  | ev :: rest =>
    if tableIsIgnored ignoredTables ev.TableSchema then
      binlogEventLoop ignoredTables rest
    else
      match ev.PK with
      | Except.error e => ([], some e)
      | Except.ok pk =>
        let r := binlogEventLoop ignoredTables rest
        ({ Pk := pk, Table := ev.TableSchema } :: r.1, r.2)

/-- IterativeVerifier.binlogEventListener (lines 407-426): when the
verifyDuringCutoverStarted flag is set the listener returns the protocol
error before entering the loop, so nothing is ever sent to the channel. -/
def binlogEventListener (verifyDuringCutoverStarted : Bool)
    (ignoredTables : List String) (evs : List DMLEvent) :
    List ReverifyEntry × Option String :=
  if verifyDuringCutoverStarted then
    ([], some ("cutover has started but received binlog event!"))
  else
    binlogEventLoop ignoredTables evs

/-- The entries that the listener loop emits for a list of events all of
whose non-ignored members have an extractable PK. -/
def emittedEntries (ignoredTables : List String) : List DMLEvent → List ReverifyEntry
  | [] => []
  | ev :: rest =>
    if tableIsIgnored ignoredTables ev.TableSchema then
      emittedEntries ignoredTables rest
    else
      match ev.PK with
      | Except.ok pk => { Pk := pk, Table := ev.TableSchema } :: emittedEntries ignoredTables rest
      | Except.error _ => emittedEntries ignoredTables rest

/-- The controller state relevant to phase sequencing: whether Initialize
has set the logger, the reverify channel and the store (lines 175-186),
whether VerifyBeforeCutover has set v.wg and completed (lines 191, 219),
and the verifyDuringCutoverStarted atomic flag. -/
structure IterativeVerifierState where
  loggerSet : Bool
  reverifyChanSet : Bool
  wgSet : Bool
  beforeCutoverVerifyDone : Bool
  verifyDuringCutoverStarted : Bool
  deriving DecidableEq, Repr

/-- Go runtime panics reachable in the controller when its phase methods
run against uninitialized collaborators. -/
inductive GoPanic where
  | closeOfNilChannel
  | nilPointerDereference
  deriving DecidableEq, Repr

/-- Outcome of the StartInBackground entry section (lines 290-301): either
one of the three guard errors, or the method proceeds (records the start
time and spawns the background goroutine) with the state it will run on. -/
inductive StartOutcome where
  | failed (msg : String)
  | started (v : IterativeVerifierState)
  deriving DecidableEq, Repr

/-- IterativeVerifier.StartInBackground entry guards (lines 290-301),
in source order. -/
def StartInBackground (v : IterativeVerifierState) : StartOutcome :=
  if v.loggerSet = false then
    StartOutcome.failed ("Initialize() must be called before this")
  else if v.beforeCutoverVerifyDone = false then
    StartOutcome.failed ("VerifyBeforeCutover() must be called before this")
  else if v.verifyDuringCutoverStarted = true then
    StartOutcome.failed ("verification during cutover has already been started")
  else
    StartOutcome.started v

/-- Modelled from the spec: the WorkerPool (a collaborator of this
repository that is not under src/).  Per §5 it runs N concurrent workers
over K indexed jobs and returns the per-worker last-result slice, which may
be sparse (nil for a worker that ran no job); worker j is given the job
stripe j, j+N, j+2N, ….  The early abort on a first error only makes the
slots sparser and is not modelled; the theorems below apply the pool only
where that cannot matter (with zero jobs every schedule yields all-nil
slots). -/
def WorkerPoolRunSlots {α : Type} (concurrency n : Nat) (process : Nat → α) :
    List (Option α) :=
  (List.range concurrency).map (fun j =>
    match ((List.range n).filter (fun i => i % concurrency == j)).getLast? with
    | none => none
    | some i => some (process i))

/-- The result-aggregation loop of VerifyDuringCutover (lines 267-283):
result and err start as Go zero values ({false, } and nil), nil slots are
skipped, each non-nil slot overwrites them, and the loop breaks at the
first slot whose verificationResultAndError ErroredOrFailed. -/
def aggregateCutoverLoop (results : List (Option VerificationResultAndError)) :
    List Nat → VerificationResult × Option String → VerificationResult × Option String
  | [], acc => acc
  | i :: rest, acc =>
    match results.getD i none with
    | none => aggregateCutoverLoop results rest acc
    | some resultAndErr =>
      if resultAndErr.ErroredOrFailed then (resultAndErr.Result, resultAndErr.Error)
      else aggregateCutoverLoop results rest (resultAndErr.Result, resultAndErr.Error)

/-- The loop for i := 0; i < v.Concurrency; i++ of lines 269-283. -/
def aggregateCutoverResults (concurrency : Nat)
    (results : List (Option VerificationResultAndError)) :
    VerificationResult × Option String :=
  aggregateCutoverLoop results (List.range concurrency)
    ({ DataCorrect := false, Message := "" }, none)

/-- The per-batch Process closure of VerifyDuringCutover (lines 240-262):
verifyBatch abstracts verifyPksDuringCutover (a database interaction); on an
errored or failed result the closure returns it together with the sentinel
erroredOrFailed error, otherwise with nil. -/
def cutoverProcess (allBatches : List ReverifyBatch)
    (verifyBatch : ReverifyBatch → VerificationResult × Option String)
    (reverifyBatchIndex : Nat) : VerificationResultAndError × Option String :=
  let reverifyBatch := allBatches.getD reverifyBatchIndex { Pks := [], Table := { SchemaName := "", TableName := "" } }
  let r := verifyBatch reverifyBatch
  let resultAndErr : VerificationResultAndError := { Result := r.1, Error := r.2 }
  if resultAndErr.ErroredOrFailed then (resultAndErr, some ("reverify errored or failed"))
  else (resultAndErr, none)

/-- IterativeVerifier.VerifyDuringCutover (lines 225-288).  The method has
no entry guard: it sets the atomic flag and immediately closes
v.reverifyChan — when Initialize has not run the channel is nil and Go
panics on close(nil); when VerifyBeforeCutover has not run v.wg is nil and
v.wg.Wait() dereferences a nil pointer.  Otherwise it freezes the store,
runs the per-batch pool (the pool error is discarded at line 265) and
aggregates the per-worker slots.  store is v.reverifyStore, batchSize is
int(v.CursorConfig.BatchSize), and verifyBatch abstracts the database work
of verifyPksDuringCutover. -/
def VerifyDuringCutover (v : IterativeVerifierState) (store : ReverifyStore)
    (batchSize : Int) (concurrency : Nat)
    (verifyBatch : ReverifyBatch → VerificationResult × Option String) :
    Except GoPanic (VerificationResult × Option String) :=
  if v.reverifyChanSet = false then Except.error GoPanic.closeOfNilChannel
  else if v.wgSet = false then Except.error GoPanic.nilPointerDereference
  else
    let allBatches := (store.FreezeAndBatchByTable batchSize).1
    let results := WorkerPoolRunSlots concurrency allBatches.length
      (fun i => (cutoverProcess allBatches verifyBatch i).1)
    Except.ok (aggregateCutoverResults concurrency results)

/-- Modelled from the spec: quoteField (repository code outside src/);
§6 shows every column and table reference rendered between backticks. -/
def quoteField (f : String) : String := "`" ++ f ++ "`"

/-- Modelled from the spec: QuotedTableNameFromString (repository code
outside src/); §6 shows the FROM clause rendered as a backtick-quoted
schema.table pair. -/
def QuotedTableNameFromString (database table : String) : String :=
  "`" ++ database ++ "`." ++ ("`" ++ table ++ "`")

/-- normalizeAndQuoteColumn (lines 572-578). -/
def normalizeAndQuoteColumn (column : TableColumn) : String :=
  let quoted := quoteField column.Name
  if column.«Type» = ColumnType.TYPE_FLOAT then
    "(if (" ++ quoted ++ " = \x27-0\x27, 0, " ++ quoted ++ "))"
  else quoted

/-- rowMd5Selector (lines 556-570), reduced to the select clause it passes
to the query builder. -/
def rowMd5Selector (columns : List TableColumn) (pkColumn : String) : String :=
  let quotedPK := quoteField pkColumn
  let hashStrs := columns.map
    (fun column => "MD5(COALESCE(" ++ normalizeAndQuoteColumn column ++ ", \x27NULL\x27))")
  quotedPK ++ ", MD5(CONCAT(" ++ String.intercalate (",") hashStrs ++ ")) AS row_fingerprint"

/-- Modelled from the spec: the squirrel query builder (external
dependency).  §6 fixes the rendering of
Select(clause).From(t).Where(Eq with col in vals).OrderBy(col).ToSql() as
SELECT clause FROM t WHERE col IN (placeholders) ORDER BY col with one
placeholder per value and the values as the argument list. -/
def squirrelSelectSql (selectClause fromTable whereCol : String)
    (vals : List Nat) (orderByCol : String) : String × List Nat :=
  ("SELECT " ++ selectClause ++ " FROM " ++ fromTable ++ " WHERE " ++ whereCol
      ++ " IN (" ++ String.intercalate (",") (vals.map (fun _ => "?")) ++ ") ORDER BY "
      ++ orderByCol,
    vals)

/-- GetMd5HashesSql (lines 547-554).  ToSql never fails on this builder, so
the error result is dropped and the (sql, args) pair returned. -/
def GetMd5HashesSql (schemaName table pkColumn : String)
    (columns : List TableColumn) (pks : List Nat) : String × List Nat :=
  let quotedPK := quoteField pkColumn
  squirrelSelectSql (rowMd5Selector columns pkColumn)
    (QuotedTableNameFromString schemaName table) quotedPK pks quotedPK

/-- The (table, pk) pair that an Add call registers. -/
def addedPair (e : ReverifyEntry) : TableIdentifier × Nat :=
  (NewTableIdentifierFromSchemaTable e.Table, e.Pk)

/-- The (table, pk) pairs laid out in a batch list, in order. -/
def batchPairs : List ReverifyBatch → List (TableIdentifier × Nat)
  | [] => []
  | b :: rest => b.Pks.map (fun pk => (b.Table, pk)) ++ batchPairs rest

/-- The (table, pk) pairs held in a map store, in order. -/
def storePairs {α : Type} : List (α × List Nat) → List (α × Nat)
  | [] => []
  | (t, pks) :: rest => pks.map (fun pk => (t, pk)) ++ storePairs rest

/-- The invariant maintained by Add on a live store: the map is non-nil,
its keys are distinct, each per-table pk set is duplicate-free, and a
(table, pk) pair is in the map exactly when it was added. -/
def StoreInv (s : ReverifyStore) (pairs : List (TableIdentifier × Nat)) : Prop :=
  ∃ m, s.MapStore = some m ∧ (m.map Prod.fst).Nodup ∧ (∀ e ∈ m, e.2.Nodup) ∧
    ∀ t pk, ((∃ l, goMapGet m t = some l ∧ pk ∈ l) ↔ (t, pk) ∈ pairs)

/-- Claim C1 (code bug, evaluated at the failing input): when the reverify
store is empty at freeze there are zero batches, so no worker ever writes a
result slot, the aggregation loop of VerifyDuringCutover never assigns, and
the Go zero value (DataCorrect false, empty message) is returned with a nil
error — not the claimed result with data_correct true. -/
theorem VerifyDuringCutover_emptyStore_returnsDataIncorrect :
    VerifyDuringCutover
        { loggerSet := true, reverifyChanSet := true, wgSet := true,
          beforeCutoverVerifyDone := true, verifyDuringCutoverStarted := false }
        NewReverifyStore 100 2
        (fun _ => ({ DataCorrect := true, Message := "" }, none))
      = Except.ok ({ DataCorrect := false, Message := "" }, none) ∧
    ({ DataCorrect := false, Message := "" } : VerificationResult)
      ≠ { DataCorrect := true, Message := "" } :=
  ⟨rfl, by decide⟩

/-- Claim C2 (code bug, evaluated at the failing input): on a store holding
one added entry, the first FreezeAndBatchByTable(1) returns that batch, but
— the Go receiver being a value receiver — the frozen-marker assignments
are lost while the map deletions empty the shared map of the caller, so a second call
on the same store returns the empty batch list instead of the same
batches. -/
theorem FreezeAndBatchByTable_secondCall_differs :
    (((NewReverifyStore.Add
        { Pk := 1, Table := { Schema := "db", Name := "t", Columns := [] } }).FreezeAndBatchByTable
          1).1
      = [{ Pks := [1], Table := { SchemaName := "db", TableName := "t" } }]) ∧
    ((((NewReverifyStore.Add
        { Pk := 1, Table := { Schema := "db", Name := "t", Columns := [] } }).FreezeAndBatchByTable
          1).2.FreezeAndBatchByTable 1).1
      = []) :=
  ⟨rfl, rfl⟩

/-- Claim C5: the SQL generated by GetMd5HashesSql selects the quoted PK
column and MD5(CONCAT(MD5(COALESCE(c1, NULL-literal)), …)) AS
row_fingerprint, with every float column replaced by the IF expression
mapping the textual value -0 to 0 in place of the bare quoted reference,
FROM the quoted schema.table, WHERE the PK column IN one placeholder per
given pk, ORDER BY the PK column; the argument list is the pk list. -/
theorem GetMd5HashesSql_shape (schemaName table pkColumn : String)
    (columns : List TableColumn) (pks : List Nat) :
    GetMd5HashesSql schemaName table pkColumn columns pks
      = ("SELECT "
            ++ ("`" ++ pkColumn ++ "`" ++ ", MD5(CONCAT("
                ++ String.intercalate (",")
                  (columns.map (fun c =>
                    "MD5(COALESCE("
                      ++ (if c.«Type» = ColumnType.TYPE_FLOAT then
                            "(if (" ++ ("`" ++ c.Name ++ "`") ++ " = \x27-0\x27, 0, "
                              ++ ("`" ++ c.Name ++ "`") ++ "))"
                          else "`" ++ c.Name ++ "`")
                      ++ ", \x27NULL\x27))"))
                ++ ")) AS row_fingerprint")
            ++ " FROM " ++ ("`" ++ schemaName ++ "`." ++ ("`" ++ table ++ "`"))
            ++ " WHERE " ++ ("`" ++ pkColumn ++ "`")
            ++ " IN (" ++ String.intercalate (",") (pks.map (fun _ => "?"))
            ++ ") ORDER BY " ++ ("`" ++ pkColumn ++ "`"),
          pks) :=
  rfl

/-- Claim C6: for every event batch delivered after the
verifyDuringCutoverStarted flag has been set, the listener returns the
protocol error and emits no ReverifyEntry for any event of the batch. -/
theorem binlogEventListener_afterCutoverStarted (ignoredTables : List String)
    (evs : List DMLEvent) :
    binlogEventListener true ignoredTables evs
      = ([], some ("cutover has started but received binlog event!")) :=
  rfl

/-- Claim C7 (counterexample): VerifyDuringCutover called without
Initialize does not return a SequencingError at entry — it has no entry
guard, and closing the nil reverifyChan panics. -/
theorem VerifyDuringCutover_uninitialized_panics :
    VerifyDuringCutover
        { loggerSet := false, reverifyChanSet := false, wgSet := false,
          beforeCutoverVerifyDone := false, verifyDuringCutoverStarted := false }
        NewReverifyStore 1 1
        (fun _ => ({ DataCorrect := true, Message := "" }, none))
      = Except.error GoPanic.closeOfNilChannel :=
  rfl

/-- Claim C7 (amended): only StartInBackground enforces sequencing at
entry — it returns the Initialize guard error when the logger is unset, the
VerifyBeforeCutover guard error when pre-cutover has not completed, and the
already-started guard error when cutover has begun, without performing its
work; VerifyDuringCutover performs no entry sequencing check — called
without Initialize it panics closing the nil reverify channel instead of
returning an error. -/
theorem StartInBackground_sequencing_guards (v : IterativeVerifierState)
    (store : ReverifyStore) (batchSize : Int) (concurrency : Nat)
    (verifyBatch : ReverifyBatch → VerificationResult × Option String) :
    (v.loggerSet = false →
      StartInBackground v = StartOutcome.failed ("Initialize() must be called before this")) ∧
    (v.loggerSet = true → v.beforeCutoverVerifyDone = false →
      StartInBackground v
        = StartOutcome.failed ("VerifyBeforeCutover() must be called before this")) ∧
    (v.loggerSet = true → v.beforeCutoverVerifyDone = true →
        v.verifyDuringCutoverStarted = true →
      StartInBackground v
        = StartOutcome.failed ("verification during cutover has already been started")) ∧
    (v.reverifyChanSet = false →
      VerifyDuringCutover v store batchSize concurrency verifyBatch
        = Except.error GoPanic.closeOfNilChannel) := by
  refine ⟨fun h1 => ?_, fun h1 h2 => ?_, fun h1 h2 h3 => ?_, fun h4 => ?_⟩
  · simp [StartInBackground, h1]
  · simp [StartInBackground, h1, h2]
  · simp [StartInBackground, h1, h2, h3]
  · simp [VerifyDuringCutover, h4]

/-- Witness for the amended claim C7, at a concrete uninitialized
controller state. -/
theorem StartInBackground_sequencing_guards_witness :
    StartInBackground
        { loggerSet := false, reverifyChanSet := false, wgSet := false,
          beforeCutoverVerifyDone := false, verifyDuringCutoverStarted := false }
      = StartOutcome.failed ("Initialize() must be called before this") :=
  (StartInBackground_sequencing_guards
      { loggerSet := false, reverifyChanSet := false, wgSet := false,
        beforeCutoverVerifyDone := false, verifyDuringCutoverStarted := false }
      NewReverifyStore 1 1
      (fun _ => ({ DataCorrect := true, Message := "" }, none))).1 rfl

theorem goMapGet_eq_some_mem {α β : Type} [DecidableEq α] (m : List (α × β))
    (k : α) (v : β) (h : goMapGet m k = some v) : (k, v) ∈ m := by
  induction m with
  | nil => simp [goMapGet] at h
  | cons e rest ih =>
    rw [show goMapGet (e :: rest) k = if e.1 = k then some e.2 else goMapGet rest k
          from rfl] at h
    by_cases hek : e.1 = k
    · rw [if_pos hek] at h
      injection h with h
      exact List.mem_cons.2 (Or.inl (by rw [← hek, ← h]))
    · rw [if_neg hek] at h
      exact List.mem_cons_of_mem _ (ih h)

theorem goMapGet_goMapSet_self {α β : Type} [DecidableEq α] (m : List (α × β))
    (k : α) (v : β) : goMapGet (goMapSet m k v) k = some v := by
  induction m with
  | nil => simp [goMapSet, goMapGet]
  | cons e rest ih =>
    obtain ⟨a, b⟩ := e
    by_cases h : a = k
    · simp [goMapSet, goMapGet, h]
    · simp [goMapSet, goMapGet, h, ih]

theorem goMapGet_goMapSet_ne {α β : Type} [DecidableEq α] (m : List (α × β))
    (k : α) (v : β) (k2 : α) (hne : k ≠ k2) :
    goMapGet (goMapSet m k v) k2 = goMapGet m k2 := by
  induction m with
  | nil => simp [goMapSet, goMapGet, hne]
  | cons e rest ih =>
    obtain ⟨a, b⟩ := e
    by_cases h : a = k
    · subst h
      simp [goMapSet, goMapGet, hne]
    · simp [goMapSet, goMapGet, h, ih]

theorem mem_keys_goMapSet {α β : Type} [DecidableEq α] (m : List (α × β))
    (k : α) (v : β) (x : α) :
    x ∈ (goMapSet m k v).map Prod.fst ↔ x ∈ m.map Prod.fst ∨ x = k := by
  induction m with
  | nil => simp [goMapSet]
  | cons e rest ih =>
    obtain ⟨a, b⟩ := e
    by_cases h : a = k
    · subst h
      simp [goMapSet]
      tauto
    · simp [goMapSet, h, ih]
      tauto

theorem keys_nodup_goMapSet {α β : Type} [DecidableEq α] (m : List (α × β))
    (k : α) (v : β) (hnd : (m.map Prod.fst).Nodup) :
    ((goMapSet m k v).map Prod.fst).Nodup := by
  induction m with
  | nil => simp [goMapSet]
  | cons e rest ih =>
    obtain ⟨a, b⟩ := e
    rw [List.map_cons, List.nodup_cons] at hnd
    by_cases h : a = k
    · subst h
      simpa [goMapSet] using hnd
    · simp only [goMapSet, if_neg h, List.map_cons, List.nodup_cons]
      refine ⟨?_, ih hnd.2⟩
      rw [mem_keys_goMapSet]
      rintro (h1 | rfl)
      · exact hnd.1 h1
      · exact h rfl

theorem mem_goMapSet {α β : Type} [DecidableEq α] (m : List (α × β))
    (k : α) (v : β) (e : α × β) (h : e ∈ goMapSet m k v) :
    e = (k, v) ∨ e ∈ m := by
  induction m with
  | nil => simpa [goMapSet] using h
  | cons e2 rest ih =>
    obtain ⟨a, b⟩ := e2
    by_cases hak : a = k
    · subst hak
      rw [goMapSet, if_pos rfl] at h
      rcases List.mem_cons.1 h with rfl | h2
      · exact Or.inl rfl
      · exact Or.inr (List.mem_cons_of_mem _ h2)
    · rw [goMapSet, if_neg hak] at h
      rcases List.mem_cons.1 h with rfl | h2
      · exact Or.inr (List.mem_cons_self _ _)
      · rcases ih h2 with h3 | h3
        · exact Or.inl h3
        · exact Or.inr (List.mem_cons_of_mem _ h3)

theorem not_mem_storePairs {α : Type} [DecidableEq α] (m : List (α × List Nat))
    (t : α) (pk : Nat) (h : t ∉ m.map Prod.fst) : (t, pk) ∉ storePairs m := by
  induction m with
  | nil => simp [storePairs]
  | cons e rest ih =>
    obtain ⟨a, l⟩ := e
    rw [List.map_cons, List.mem_cons, not_or] at h
    rw [storePairs, List.mem_append]
    rintro (h1 | h2)
    · rcases List.mem_map.1 h1 with ⟨pk2, _, heq⟩
      injection heq with h3 _
      exact h.1 h3.symm
    · exact ih h.2 h2

theorem mem_storePairs {α : Type} [DecidableEq α] (m : List (α × List Nat))
    (hnd : (m.map Prod.fst).Nodup) (t : α) (pk : Nat) :
    (t, pk) ∈ storePairs m ↔ ∃ l, goMapGet m t = some l ∧ pk ∈ l := by
  induction m with
  | nil => simp [storePairs, goMapGet]
  | cons e rest ih =>
    obtain ⟨a, l⟩ := e
    rw [List.map_cons, List.nodup_cons] at hnd
    rw [storePairs, List.mem_append,
      show goMapGet ((a, l) :: rest) t = if a = t then some l else goMapGet rest t
        from rfl]
    by_cases hat : a = t
    · subst hat
      rw [if_pos rfl]
      constructor
      · rintro (h1 | h2)
        · rcases List.mem_map.1 h1 with ⟨pk2, hpk2, heq⟩
          injection heq with _ h4
          exact ⟨l, rfl, h4 ▸ hpk2⟩
        · exact absurd h2 (not_mem_storePairs rest a pk hnd.1)
      · rintro ⟨l2, hl2, hpk⟩
        injection hl2 with hl2
        exact Or.inl (List.mem_map.2 ⟨pk, hl2 ▸ hpk, rfl⟩)
    · rw [if_neg hat]
      rw [← ih hnd.2]
      constructor
      · rintro (h1 | h2)
        · rcases List.mem_map.1 h1 with ⟨pk2, _, heq⟩
          injection heq with h3 _
          exact absurd h3 hat
        · exact h2
      · exact Or.inr

theorem storePairs_nodup {α : Type} [DecidableEq α] (m : List (α × List Nat))
    (hk : (m.map Prod.fst).Nodup) (hin : ∀ e ∈ m, e.2.Nodup) :
    (storePairs m).Nodup := by
  induction m with
  | nil => simp [storePairs]
  | cons e rest ih =>
    obtain ⟨a, l⟩ := e
    rw [List.map_cons, List.nodup_cons] at hk
    rw [storePairs, List.nodup_append]
    refine ⟨?_, ih hk.2 (fun e2 h2 => hin e2 (List.mem_cons_of_mem _ h2)), ?_⟩
    · exact List.Nodup.map (fun x y hxy => by injection hxy)
        (hin (a, l) (List.mem_cons_self _ _))
    · intro x hx1 hx2
      rcases List.mem_map.1 hx1 with ⟨pk2, _, rfl⟩
      exact not_mem_storePairs rest a pk2 hk.1 hx2

theorem storeInv_new : StoreInv NewReverifyStore [] :=
  ⟨[], rfl, by simp, by simp, by simp [goMapGet]⟩

theorem exists_of_mem_getD {α : Type} [DecidableEq α] (m : List (α × List Nat))
    (tid : α) (epk : Nat) (hcase : epk ∈ (goMapGet m tid).getD []) :
    ∃ l, goMapGet m tid = some l ∧ epk ∈ l := by
  cases hg : goMapGet m tid with
  | none =>
    rw [hg] at hcase
    simp at hcase
  | some l0 =>
    rw [hg] at hcase
    exact ⟨l0, rfl, by simpa using hcase⟩

theorem inner_nodup_goMapSet {α : Type} [DecidableEq α] (m : List (α × List Nat))
    (tid : α) (epk : Nat) (hin : ∀ e ∈ m, e.2.Nodup)
    (hcase : epk ∉ (goMapGet m tid).getD []) :
    ∀ e2 ∈ goMapSet m tid ((goMapGet m tid).getD [] ++ [epk]), e2.2.Nodup := by
  intro e2 h2
  rcases mem_goMapSet m tid _ e2 h2 with rfl | h3
  · refine List.Nodup.append ?_ (List.nodup_singleton _) ?_
    · cases hg : goMapGet m tid with
      | none => simp
      | some l0 => simpa using hin (tid, l0) (goMapGet_eq_some_mem m tid l0 hg)
    · intro x hx1 hx2
      rw [List.mem_singleton] at hx2
      subst hx2
      exact hcase hx1
  · exact hin e2 h3

theorem exists_goMapSet_append {α : Type} [DecidableEq α] (m : List (α × List Nat))
    (tid : α) (epk : Nat) (t : α) (pk : Nat) :
    (∃ l, goMapGet (goMapSet m tid ((goMapGet m tid).getD [] ++ [epk])) t = some l ∧ pk ∈ l)
      ↔ ((∃ l, goMapGet m t = some l ∧ pk ∈ l) ∨ (t = tid ∧ pk = epk)) := by
  by_cases htat : t = tid
  · subst htat
    rw [goMapGet_goMapSet_self]
    constructor
    · rintro ⟨l, hl, hpk⟩
      injection hl with hl
      rw [← hl, List.mem_append, List.mem_singleton] at hpk
      rcases hpk with hpk | rfl
      · exact Or.inl (exists_of_mem_getD m t pk hpk)
      · exact Or.inr ⟨rfl, rfl⟩
    · rintro (⟨l0, hg, hpk⟩ | ⟨_, rfl⟩)
      · refine ⟨_, rfl, ?_⟩
        rw [List.mem_append]
        left
        rw [hg]
        simpa using hpk
      · refine ⟨_, rfl, ?_⟩
        rw [List.mem_append, List.mem_singleton]
        right
        rfl
  · rw [goMapGet_goMapSet_ne m tid _ t (fun hc => htat hc.symm)]
    simp [htat]

theorem storeInv_add (s : ReverifyStore) (pairs : List (TableIdentifier × Nat))
    (h : StoreInv s pairs) (e : ReverifyEntry) :
    StoreInv (s.Add e) (pairs ++ [addedPair e]) := by
  obtain ⟨m, hm, hk, hin, hmem⟩ := h
  obtain ⟨ms, ss, rc, el⟩ := s
  simp only at hm
  subst hm
  obtain ⟨epk, etab⟩ := e
  by_cases hcase : epk ∈ (goMapGet m (NewTableIdentifierFromSchemaTable etab)).getD []
  · have hAdd : ReverifyStore.Add ⟨some m, ss, rc, el⟩ ⟨epk, etab⟩
        = ⟨some m, ss, rc, el⟩ := by
      simp [ReverifyStore.Add, hcase]
    rw [hAdd]
    refine ⟨m, rfl, hk, hin, fun t pk => ?_⟩
    rw [List.mem_append, List.mem_singleton, ← hmem t pk]
    constructor
    · exact Or.inl
    · rintro (h1 | h1)
      · exact h1
      · have ht : t = NewTableIdentifierFromSchemaTable etab := by
          simpa [addedPair] using congrArg Prod.fst h1
        have hpk : pk = epk := by
          simpa [addedPair] using congrArg Prod.snd h1
        rw [ht, hpk]
        exact exists_of_mem_getD m _ _ hcase
  · have hAdd : ReverifyStore.Add ⟨some m, ss, rc, el⟩ ⟨epk, etab⟩
        = ⟨some (goMapSet m (NewTableIdentifierFromSchemaTable etab)
              ((goMapGet m (NewTableIdentifierFromSchemaTable etab)).getD [] ++ [epk])),
           ss, rc + 1, el⟩ := by
      simp [ReverifyStore.Add, hcase]
    rw [hAdd]
    refine ⟨_, rfl, keys_nodup_goMapSet m _ _ hk,
      inner_nodup_goMapSet m _ _ hin hcase, fun t pk => ?_⟩
    rw [exists_goMapSet_append, List.mem_append, List.mem_singleton, ← hmem t pk]
    constructor
    · rintro (h1 | ⟨rfl, rfl⟩)
      · exact Or.inl h1
      · exact Or.inr (by simp [addedPair])
    · rintro (h1 | h1)
      · exact Or.inl h1
      · refine Or.inr ⟨?_, ?_⟩
        · simpa [addedPair] using congrArg Prod.fst h1
        · simpa [addedPair] using congrArg Prod.snd h1

theorem storeInv_foldl (adds : List ReverifyEntry) :
    ∀ (s : ReverifyStore) (pairs : List (TableIdentifier × Nat)), StoreInv s pairs →
      StoreInv (adds.foldl ReverifyStore.Add s) (pairs ++ adds.map addedPair) := by
  induction adds with
  | nil =>
    intro s pairs h
    simpa using h
  | cons e rest ih =>
    intro s pairs h
    have h3 := ih (s.Add e) (pairs ++ [addedPair e]) (storeInv_add s pairs h e)
    simpa [List.append_assoc] using h3

theorem storeInv_applyAdds (adds : List ReverifyEntry) :
    StoreInv (applyAdds adds) (adds.map addedPair) := by
  have h := storeInv_foldl adds NewReverifyStore [] storeInv_new
  simpa [applyAdds] using h

theorem batchPairs_append (l1 l2 : List ReverifyBatch) :
    batchPairs (l1 ++ l2) = batchPairs l1 ++ batchPairs l2 := by
  induction l1 with
  | nil => simp [batchPairs]
  | cons b rest ih => simp [batchPairs, ih]

theorem batchPairs_freezeTable (bs : Int) (tid : TableIdentifier) (pks : List Nat) :
    ∀ acc : List Nat,
      batchPairs (freezeTable bs tid acc pks) = (acc ++ pks).map (fun pk => (tid, pk)) := by
  induction pks with
  | nil =>
    intro acc
    rw [freezeTable]
    by_cases h : acc.length > 0
    · rw [if_pos h]
      simp [batchPairs]
    · rw [if_neg h]
      have : acc = [] := by
        cases acc with
        | nil => rfl
        | cons x xs => simp at h
      simp [this, batchPairs]
  | cons pk rest ih =>
    intro acc
    simp only [freezeTable]
    by_cases h : ((acc ++ [pk]).length : Int) ≥ bs
    · rw [if_pos h]
      rw [batchPairs, ih []]
      simp
    · rw [if_neg h, ih (acc ++ [pk])]
      simp

theorem batchPairs_freezeTables (bs : Int) (m : List (TableIdentifier × List Nat)) :
    batchPairs (freezeTables bs m) = storePairs m := by
  induction m with
  | nil => simp [freezeTables, batchPairs, storePairs]
  | cons e rest ih =>
    obtain ⟨tid, pks⟩ := e
    rw [freezeTables, batchPairs_append, batchPairs_freezeTable bs tid pks [], ih,
      storePairs]
    simp

/-- Claim C3: for every sequence of Add calls followed by one freeze, the
multiset of (table, pk) pairs across the returned batches contains each
added (table, pk) pair exactly once and contains no pair that was never
added (duplicate Adds contribute one occurrence). -/
theorem FreezeAndBatchByTable_pairsExactlyOnce (adds : List ReverifyEntry)
    (batchsize : Int) (t : TableIdentifier) (pk : Nat) :
    Multiset.count (t, pk)
        (↑(batchPairs ((applyAdds adds).FreezeAndBatchByTable batchsize).1) :
          Multiset (TableIdentifier × Nat))
      = if (t, pk) ∈ adds.map addedPair then 1 else 0 := by
  obtain ⟨m, hm, hk, hin, hmem⟩ := storeInv_applyAdds adds
  rw [show ((applyAdds adds).FreezeAndBatchByTable batchsize).1
        = freezeTables batchsize m from by
      simp [ReverifyStore.FreezeAndBatchByTable, hm]]
  rw [batchPairs_freezeTables]
  have hnd := storePairs_nodup m hk hin
  by_cases hmem2 : (t, pk) ∈ adds.map addedPair
  · rw [if_pos hmem2]
    exact Multiset.count_eq_one_of_mem (Multiset.coe_nodup.2 hnd)
      (Multiset.mem_coe.2 ((mem_storePairs m hk t pk).2 ((hmem t pk).2 hmem2)))
  · rw [if_neg hmem2]
    exact Multiset.count_eq_zero.2
      (fun hc => hmem2 ((hmem t pk).1 ((mem_storePairs m hk t pk).1 (Multiset.mem_coe.1 hc))))

theorem freezeTable_length_le (bs : Int) (tid : TableIdentifier) (pks : List Nat) :
    ∀ acc : List Nat, 1 ≤ bs → (acc.length : Int) < bs →
      ∀ b ∈ freezeTable bs tid acc pks, (b.Pks.length : Int) ≤ bs := by
  induction pks with
  | nil =>
    intro acc h1 h2 b hb
    rw [freezeTable] at hb
    by_cases h : acc.length > 0
    · rw [if_pos h] at hb
      rw [List.mem_singleton] at hb
      subst hb
      exact le_of_lt h2
    · rw [if_neg h] at hb
      simp at hb
  | cons pk rest ih =>
    intro acc h1 h2 b hb
    simp only [freezeTable] at hb
    by_cases h : ((acc ++ [pk]).length : Int) ≥ bs
    · rw [if_pos h] at hb
      rcases List.mem_cons.1 hb with rfl | hb2
      · show ((acc ++ [pk]).length : Int) ≤ bs
        rw [List.length_append, List.length_singleton]
        push_cast
        omega
      · exact ih [] h1 (by simpa using lt_of_lt_of_le zero_lt_one h1) b hb2
    · rw [if_neg h] at hb
      exact ih (acc ++ [pk]) h1 (lt_of_not_ge h) b hb

theorem freezeTables_length_le (bs : Int) (m : List (TableIdentifier × List Nat))
    (h1 : 1 ≤ bs) : ∀ b ∈ freezeTables bs m, (b.Pks.length : Int) ≤ bs := by
  induction m with
  | nil => simp [freezeTables]
  | cons e rest ih =>
    obtain ⟨tid, pks⟩ := e
    intro b hb
    rw [freezeTables, List.mem_append] at hb
    rcases hb with h2 | h2
    · exact freezeTable_length_le bs tid pks [] h1
        (by simpa using lt_of_lt_of_le zero_lt_one h1) b h2
    · exact ih b h2

/-- Claim C8: for every batch size at least 1 and every store contents
(any sequence of Adds on a fresh store), every batch returned by
FreezeAndBatchByTable has a Pks list of length at most the batch size. -/
theorem FreezeAndBatchByTable_batchBound (adds : List ReverifyEntry)
    (batchsize : Int) (h1 : 1 ≤ batchsize) (b : ReverifyBatch)
    (hb : b ∈ ((applyAdds adds).FreezeAndBatchByTable batchsize).1) :
    (b.Pks.length : Int) ≤ batchsize := by
  obtain ⟨m, hm, _, _, _⟩ := storeInv_applyAdds adds
  rw [show ((applyAdds adds).FreezeAndBatchByTable batchsize).1
        = freezeTables batchsize m from by
      simp [ReverifyStore.FreezeAndBatchByTable, hm]] at hb
  exact freezeTables_length_le batchsize m h1 b hb

/-- Witness for claim C8 at a concrete store (one added entry) and batch
size 2, instantiated at the single returned batch. -/
theorem FreezeAndBatchByTable_batchBound_witness :
    ((1 : Int) ≤ 2) ∧
    ((({ Pks := [1], Table := { SchemaName := "db", TableName := "t" } } :
        ReverifyBatch).Pks.length : Int) ≤ 2) :=
  ⟨by decide,
    FreezeAndBatchByTable_batchBound
      [ { Pk := 1, Table := { Schema := "db", Name := "t", Columns := [] } } ] 2
      (by decide) _ (by decide)⟩

theorem mem_setInsert (s : List Nat) (k pk : Nat) :
    pk ∈ setInsert s k ↔ pk ∈ s ∨ pk = k := by
  unfold setInsert
  by_cases h : k ∈ s
  · simp only [if_pos h]
    constructor
    · exact Or.inl
    · rintro (h1 | rfl)
      · exact h1
      · exact h
  · simp [if_neg h]

theorem mem_collectMismatches (cond : Nat → List Nat → Bool)
    (l : List (Nat × List Nat)) (init : List Nat) (pk : Nat) :
    pk ∈ collectMismatches cond l init ↔
      pk ∈ init ∨ ∃ e ∈ l, e.1 = pk ∧ cond e.1 e.2 = true := by
  induction l generalizing init with
  | nil => simp [collectMismatches]
  | cons e rest ih =>
    unfold collectMismatches at ih ⊢
    simp only [List.foldl_cons]
    by_cases h : cond e.1 e.2 = true
    · rw [if_pos h, ih, mem_setInsert]
      simp only [List.mem_cons]
      constructor
      · rintro ((h1 | rfl) | ⟨e2, he2, rfl, hc⟩)
        · exact Or.inl h1
        · exact Or.inr ⟨e, Or.inl rfl, rfl, h⟩
        · exact Or.inr ⟨e2, Or.inr he2, rfl, hc⟩
      · rintro (h1 | ⟨e2, (rfl | he2), rfl, hc⟩)
        · exact Or.inl (Or.inl h1)
        · exact Or.inl (Or.inr rfl)
        · exact Or.inr ⟨e2, he2, rfl, hc⟩
    · rw [if_neg h, ih]
      simp only [List.mem_cons]
      constructor
      · rintro (h1 | ⟨e2, he2, rfl, hc⟩)
        · exact Or.inl h1
        · exact Or.inr ⟨e2, Or.inr he2, rfl, hc⟩
      · rintro (h1 | ⟨e2, (rfl | he2), rfl, hc⟩)
        · exact Or.inl h1
        · exact absurd hc h
        · exact Or.inr ⟨e2, he2, rfl, hc⟩

theorem mem_iff_goMapGet {α β : Type} [DecidableEq α] (m : List (α × β))
    (hnd : (m.map Prod.fst).Nodup) (k : α) (v : β) :
    (k, v) ∈ m ↔ goMapGet m k = some v := by
  constructor
  · intro hm
    induction m with
    | nil => simp at hm
    | cons e rest ih =>
      rw [show goMapGet (e :: rest) k = if e.1 = k then some e.2 else goMapGet rest k
            from rfl]
      rcases List.mem_cons.1 hm with heq | hmem
      · rw [← heq]
        simp
      · have hk : k ∈ rest.map Prod.fst := by
          exact List.mem_map.2 ⟨(k, v), hmem, rfl⟩
        have hne : e.1 ≠ k := by
          intro hcontra
          rw [List.map_cons, List.nodup_cons] at hnd
          exact hnd.1 (hcontra ▸ hk)
        rw [if_neg hne]
        exact ih (by rw [List.map_cons, List.nodup_cons] at hnd; exact hnd.2) hmem
  · exact goMapGet_eq_some_mem m k v

theorem exists_entry_iff_goMapGet (m : List (Nat × List Nat))
    (hnd : (m.map Prod.fst).Nodup) (pk : Nat) (c : Nat → List Nat → Bool) :
    (∃ e ∈ m, e.1 = pk ∧ c e.1 e.2 = true) ↔
      ∃ h, goMapGet m pk = some h ∧ c pk h = true := by
  constructor
  · rintro ⟨⟨k, v⟩, hm, rfl, hc⟩
    exact ⟨v, (mem_iff_goMapGet m hnd k v).1 hm, hc⟩
  · rintro ⟨h, hget, hc⟩
    exact ⟨(pk, h), goMapGet_eq_some_mem m pk h hget, rfl, hc⟩

/-- Claim C4: compareHashes returns exactly the set of PKs present as a key
in one map and absent in the other, or present in both with bytewise
unequal fingerprint values, and no other PK. -/
theorem compareHashes_spec (src tgt : List (Nat × List Nat)) (pk : Nat)
    (hsrc : (src.map Prod.fst).Nodup) (htgt : (tgt.map Prod.fst).Nodup) :
    pk ∈ compareHashes src tgt ↔
      ((goMapGet src pk).isSome ∧ goMapGet tgt pk = none) ∨
      (goMapGet src pk = none ∧ (goMapGet tgt pk).isSome) ∨
      (∃ a b, goMapGet src pk = some a ∧ goMapGet tgt pk = some b ∧ a ≠ b) := by
  unfold compareHashes
  rw [mem_collectMismatches, mem_collectMismatches]
  simp only [List.not_mem_nil, false_or]
  have hT := exists_entry_iff_goMapGet tgt htgt pk
    (fun k targetHash =>
      !((goMapGet src k).getD [] == targetHash) || !(goMapGet src k).isSome)
  have hS := exists_entry_iff_goMapGet src hsrc pk
    (fun k sourceHash =>
      !(sourceHash == (goMapGet tgt k).getD []) || !(goMapGet tgt k).isSome)
  simp only at hT hS
  rw [hT, hS]
  cases hs : goMapGet src pk with
  | none =>
    cases ht : goMapGet tgt pk with
    | none => simp [hs, ht]
    | some b => simp [hs, ht]
  | some a =>
    cases ht : goMapGet tgt pk with
    | none => simp [hs, ht]
    | some b =>
      constructor
      · intro hL
        refine Or.inr (Or.inr ⟨a, b, rfl, rfl, ?_⟩)
        rcases hL with ⟨h, hh, hc⟩ | ⟨h, hh, hc⟩
        · injection hh with hh
          subst hh
          simpa using hc
        · injection hh with hh
          subst hh
          simpa using hc
      · rintro (⟨_, hnoneT⟩ | ⟨hnoneS, _⟩ | ⟨a2, b2, ha2, hb2, hne⟩)
        · simp at hnoneT
        · simp at hnoneS
        · injection ha2 with ha2
          injection hb2 with hb2
          subst ha2
          subst hb2
          refine Or.inl ⟨b, rfl, ?_⟩
          simpa using hne

/-- Claim C9: compareHashes is symmetric — for all hash maps the returned
PK sets of compareHashes src tgt and compareHashes tgt src coincide. -/
theorem compareHashes_symm (src tgt : List (Nat × List Nat)) (pk : Nat) :
    pk ∈ compareHashes src tgt ↔ pk ∈ compareHashes tgt src := by
  unfold compareHashes
  rw [mem_collectMismatches, mem_collectMismatches, mem_collectMismatches,
    mem_collectMismatches]
  simp only [List.not_mem_nil, false_or]
  have hbeq : ∀ (x y : List Nat), (x == y) = (y == x) := by
    intro x y
    by_cases h : x = y
    · rw [h]
    · rw [beq_eq_false_iff_ne.2 h, beq_eq_false_iff_ne.2 (Ne.symm h)]
  have h1 : ∀ e : Nat × List Nat,
      (!(e.2 == (goMapGet tgt e.1).getD []) || !(goMapGet tgt e.1).isSome)
        = (!((goMapGet tgt e.1).getD [] == e.2) || !(goMapGet tgt e.1).isSome) := by
    intro e
    rw [hbeq]
  have h2 : ∀ e : Nat × List Nat,
      (!((goMapGet src e.1).getD [] == e.2) || !(goMapGet src e.1).isSome)
        = (!(e.2 == (goMapGet src e.1).getD []) || !(goMapGet src e.1).isSome) := by
    intro e
    rw [hbeq]
  simp only [h1, h2]
  exact or_comm

/-- Witness for claim C4 at concrete maps: pk 3 is reported because it is
present only on the target side. -/
theorem compareHashes_spec_witness :
    (([(1, [0]), (2, [5])] : List (Nat × List Nat)).map Prod.fst).Nodup ∧
    (([(1, [0]), (3, [7])] : List (Nat × List Nat)).map Prod.fst).Nodup ∧
    (3 ∈ compareHashes [(1, [0]), (2, [5])] [(1, [0]), (3, [7])] ↔
      ((goMapGet [(1, [0]), (2, [5])] 3).isSome ∧ goMapGet [(1, [0]), (3, [7])] 3 = none) ∨
      (goMapGet [(1, [0]), (2, [5])] 3 = none ∧ (goMapGet [(1, [0]), (3, [7])] 3).isSome) ∨
      (∃ a b, goMapGet [(1, [0]), (2, [5])] 3 = some a ∧
        goMapGet [(1, [0]), (3, [7])] 3 = some b ∧ a ≠ b)) :=
  ⟨by decide, by decide,
    compareHashes_spec [(1, [0]), (2, [5])] [(1, [0]), (3, [7])] 3 (by decide) (by decide)⟩

/-- Claim C10: in an event batch whose first failing non-ignored event is
bad, the listener returns the PK-extraction error of bad after having emitted a
ReverifyEntry for every preceding non-ignored event, and emits nothing for
bad or for any later event. -/
theorem binlogEventListener_partialEmit (ignoredTables : List String)
    (pre : List DMLEvent) (bad : DMLEvent) (post : List DMLEvent) (e : String)
    (hpre : ∀ ev ∈ pre,
      tableIsIgnored ignoredTables ev.TableSchema = false → pkExtractOk ev = true)
    (hbad1 : tableIsIgnored ignoredTables bad.TableSchema = false)
    (hbad2 : bad.PK = Except.error e) :
    binlogEventListener false ignoredTables (pre ++ bad :: post)
      = (emittedEntries ignoredTables pre, some e) := by
  unfold binlogEventListener
  rw [if_neg (by simp)]
  induction pre with
  | nil =>
    simp only [List.nil_append, binlogEventLoop, hbad1, Bool.false_eq_true, if_false,
      hbad2, emittedEntries]
  | cons ev rest ih =>
    have hrest : ∀ ev2 ∈ rest,
        tableIsIgnored ignoredTables ev2.TableSchema = false → pkExtractOk ev2 = true :=
      fun ev2 h2 => hpre ev2 (List.mem_cons_of_mem _ h2)
    by_cases hign : tableIsIgnored ignoredTables ev.TableSchema = true
    · have hstep : binlogEventLoop ignoredTables ((ev :: rest) ++ bad :: post)
          = binlogEventLoop ignoredTables (rest ++ bad :: post) := by
        simp [binlogEventLoop, hign]
      rw [hstep, ih hrest]
      simp [emittedEntries, hign]
    · have hign2 : tableIsIgnored ignoredTables ev.TableSchema = false := by
        simpa using hign
      have hok := hpre ev (List.mem_cons_self _ _) hign2
      unfold pkExtractOk at hok
      cases hPK : ev.PK with
      | error e2 => rw [hPK] at hok; simp at hok
      | ok pk =>
        have hstep : binlogEventLoop ignoredTables ((ev :: rest) ++ bad :: post)
            = ({ Pk := pk, Table := ev.TableSchema } ::
                (binlogEventLoop ignoredTables (rest ++ bad :: post)).1,
               (binlogEventLoop ignoredTables (rest ++ bad :: post)).2) := by
          simp [binlogEventLoop, hign2, hPK]
        rw [hstep, ih hrest]
        simp [emittedEntries, hign2, hPK]

/-- Witness for claim C10 at a concrete event batch: an ok event, an
ignored event, a failing event, then a trailing event; only the entry of the first
event is emitted and the extraction error is returned. -/
theorem binlogEventListener_partialEmit_witness :
    binlogEventListener false ["skip"]
        [ { TableSchema := { Schema := "db", Name := "t1", Columns := [] },
            PK := Except.ok 5 },
          { TableSchema := { Schema := "db", Name := "skip", Columns := [] },
            PK := Except.ok 6 },
          { TableSchema := { Schema := "db", Name := "t1", Columns := [] },
            PK := Except.error ("pk extraction failed") },
          { TableSchema := { Schema := "db", Name := "t1", Columns := [] },
            PK := Except.ok 7 } ]
      = ([ { Pk := 5, Table := { Schema := "db", Name := "t1", Columns := [] } } ],
         some ("pk extraction failed")) := by
  have h := binlogEventListener_partialEmit ["skip"]
    [ { TableSchema := { Schema := "db", Name := "t1", Columns := [] },
        PK := Except.ok 5 },
      { TableSchema := { Schema := "db", Name := "skip", Columns := [] },
        PK := Except.ok 6 } ]
    { TableSchema := { Schema := "db", Name := "t1", Columns := [] },
      PK := Except.error ("pk extraction failed") }
    [ { TableSchema := { Schema := "db", Name := "t1", Columns := [] },
        PK := Except.ok 7 } ]
    ("pk extraction failed") (by decide) (by decide) rfl
  simpa using h

end Ghostferry
